import Mathlib

/-!
Verification of the minifig-builder allocation and scoring engine.

The definitions below are a shallow embedding of the Python source in
`src/find_minifigs_api.py` (classes `InventoryParser` and `MinifigureFinder`).
Python dicts become association lists or explicit functions, floats become
exact rationals, machine integers become `Nat` (with `Int` used exactly where
the source subtracts values that may go negative), and the allocator's
mutable state (`allocated_parts`, accumulated results) is passed explicitly
through fold steps.  Quantities parsed from BrickLink data are modelled as
naturals; the source's `//` on nonnegative ints agrees with `Nat`/`Int`
division used here.
-/

set_option maxRecDepth 10000

namespace MinifigBuilder

/-- Key of the inventory dictionary: `(part_id, color_id)`. -/
structure PartKey where
  part_id : String
  color_id : ℕ
deriving DecidableEq

/-- Dataclass `InventoryPart` from the source: one merged inventory entry. -/
structure InventoryPart where
  part_id : String
  color_id : ℕ
  quantity : ℕ
  item_type : String
  price : ℚ
  remarks : String
deriving DecidableEq

/-- The inventory dict `self.inventory`, in Python insertion order. -/
abbrev Inventory := List (PartKey × InventoryPart)

/-- Dictionary lookup on the inventory (first entry with the key). -/
def lookupInv (inv : Inventory) (k : PartKey) : Option InventoryPart :=
  (inv.find? (fun e => decide (e.1 = k))).map (fun e => e.2)

/-- Quantity on hand for a key, zero when absent (spec section 7 lookup miss). -/
def availQty (inv : Inventory) (k : PartKey) : ℕ :=
  match lookupInv inv k with
  | some p => p.quantity
  | none => 0

/-- `InventoryParser.has_part`: returns `(has_enough, available, remarks, price)`. -/
def has_part (inv : Inventory) (part_id : String) (color_id : ℕ) (quantity : ℕ) :
    Bool × ℕ × String × ℚ :=
  match lookupInv inv ⟨part_id, color_id⟩ with
  | some p => (decide (quantity ≤ p.quantity), p.quantity, p.remarks, p.price)
  | none => (false, 0, "", 0)

/-- One `ITEM` element of the BrickLink XML inventory, after the per-field
parsing in `InventoryParser.load` (missing `PRICE` is `none`, missing
`REMARKS` is the empty string, exactly as the source defaults them). -/
structure InvLine where
  item_id : String
  item_type : String
  color : ℕ
  qty : ℕ
  price : Option ℚ
  remarks : String
deriving DecidableEq

/-- The dictionary key an inventory line merges into. -/
def lineKey (l : InvLine) : PartKey := ⟨l.item_id, l.color⟩

/-- Body of the `for item in root.findall` loop of `InventoryParser.load`:
only `P`/`M` lines are kept; a duplicate key sums the quantity and keeps the
first non-empty remark; price is set only when the entry is first created. -/
def loadLine (inv : Inventory) (l : InvLine) : Inventory :=
  if l.item_type = "P" ∨ l.item_type = "M" then
    match lookupInv inv (lineKey l) with
    | some _ =>
        inv.map (fun e =>
          if e.1 = lineKey l then
            (e.1, { e.2 with
              quantity := e.2.quantity + l.qty,
              remarks := if e.2.remarks = "" ∧ l.remarks ≠ "" then l.remarks else e.2.remarks })
          else e)
    | none =>
        inv ++ [(lineKey l, ⟨l.item_id, l.color, l.qty, l.item_type, l.price.getD 0, l.remarks⟩)]
  else inv

/-- `InventoryParser.load`: fold the loop body over the parsed lines. -/
def load (ls : List InvLine) : Inventory := ls.foldl loadLine []

/-- Dataclass `MinifigPart` from `fetch_bricklink_minifig.py`. -/
structure MinifigPart where
  part_id : String
  part_name : String
  color_id : ℕ
  color_name : String
  quantity : ℕ
  is_alternate : Bool
  is_counterpart : Bool
  is_extra : Bool
  is_spare : Bool
deriving DecidableEq

/-- The inventory key a recipe line refers to. -/
def partKeyOf (p : MinifigPart) : PartKey := ⟨p.part_id, p.color_id⟩

/-- One condition block of a BrickLink price guide (`avg_price` may be absent). -/
structure CondPrice where
  avg_price : Option ℚ
deriving DecidableEq

/-- The `data` dict of a cached price entry; either sub-block may be absent. -/
structure PriceGuide where
  ordered_new : Option CondPrice
  ordered_used : Option CondPrice
deriving DecidableEq

/-- A cached price record; `data` absent or empty is modelled as `none`. -/
structure PriceData where
  data : Option PriceGuide
deriving DecidableEq

/-- Entry of the `matched_parts` detail list built in `check_minifig`. -/
structure MatchedDetail where
  part_id : String
  part_name : String
  color_id : ℕ
  color_name : String
  quantity : ℕ
  price : ℚ
  total_price : ℚ
  remarks : String
deriving DecidableEq

/-- Entry of the `missing` detail list built in `check_minifig` / phase 2. -/
structure MissingDetail where
  part_id : String
  part_name : String
  color_id : ℕ
  color_name : String
  needed : ℕ
  available : ℕ
  short_by : ℕ
  price : ℚ
  remarks : String
deriving DecidableEq

/-- The inventory key a matched-detail line refers to. -/
def detKey (d : MatchedDetail) : PartKey := ⟨d.part_id, d.color_id⟩

/-- Dataclass `MinifigMatch` from the source, with the dataclass defaults
(`buildable_count = 0`, `profit = 0`) made explicit at construction sites. -/
structure MinifigMatch where
  minifig_id : String
  minifig_name : String
  year_released : Option ℕ
  category_name : String
  total_parts : ℕ
  matched_parts : ℕ
  missing_parts : ℕ
  match_percentage : ℚ
  can_build : Bool
  missing_details : List MissingDetail
  buildable_count : ℕ
  matched_details : List MatchedDetail
  price_data : Option PriceData
  profit : ℚ
deriving DecidableEq

/-- One cached minifigure record as consumed by `check_minifig`: the
`item_data` fields it reads, the parts list, and the optional price cache
entry.  Ids whose cache lookup fails produce no match at all in the source,
so the candidate list is modelled as the present records only. -/
structure MinifigData where
  minifig_id : String
  name : String
  year_released : Option ℕ
  category_name : String
  parts : List MinifigPart
  price_data : Option PriceData
deriving DecidableEq

/-- The source's filter to regular parts (not alternates or counterparts). -/
def regular_parts (d : MinifigData) : List MinifigPart :=
  d.parts.filter (fun p => !p.is_alternate && !p.is_counterpart)

/-- Accumulator of the part loop in `check_minifig`. -/
structure CheckAcc where
  matched : ℕ
  missing : List MissingDetail
  matchedL : List MatchedDetail
  build_limits : List ℕ
deriving DecidableEq

/-- Body of the `for part in regular_parts` loop in `check_minifig`. -/
def checkStep (inv : Inventory) (acc : CheckAcc) (p : MinifigPart) : CheckAcc :=
  let r := has_part inv p.part_id p.color_id p.quantity
  let acc1 := if 0 < p.quantity
    then { acc with build_limits := acc.build_limits ++ [r.2.1 / p.quantity] }
    else acc
  if r.1 then
    { acc1 with
      matched := acc1.matched + 1,
      matchedL := acc1.matchedL ++
        [⟨p.part_id, p.part_name, p.color_id, p.color_name, p.quantity,
          r.2.2.2, r.2.2.2 * p.quantity, r.2.2.1⟩] }
  else
    { acc1 with
      missing := acc1.missing ++
        [⟨p.part_id, p.part_name, p.color_id, p.color_name, p.quantity,
          r.2.1, p.quantity - r.2.1, r.2.2.2,
          if 0 < r.2.1 then r.2.2.1 else ""⟩] }

/-- `MinifigureFinder.check_minifig` on a present cache record: `none` when
the recipe has no regular parts, otherwise the `MinifigMatch` the source
constructs.  `buildable_count` is `min(build_limits)` or `0` on the empty
list, and `profit` is the dataclass default `0`. -/
def check_minifig (inv : Inventory) (d : MinifigData) : Option MinifigMatch :=
  let reg := regular_parts d
  if reg = [] then none
  else
    let acc := reg.foldl (checkStep inv) ⟨0, [], [], []⟩
    let total := reg.length
    some
      { minifig_id := d.minifig_id
        minifig_name := d.name
        year_released := d.year_released
        category_name := d.category_name
        total_parts := total
        matched_parts := acc.matched
        missing_parts := total - acc.matched
        match_percentage := if 0 < total then (acc.matched : ℚ) / (total : ℚ) * 100 else 0
        can_build := decide (acc.matched = total)
        missing_details := acc.missing
        buildable_count := acc.build_limits.min?.getD 0
        matched_details := acc.matchedL
        price_data := d.price_data
        profit := 0 }

/-- Python's `x or y` on optional floats: `x` when present and nonzero
(truthy), otherwise `y`. -/
def pyOrQ (x y : Option ℚ) : Option ℚ :=
  match x with
  | some v => if v = 0 then y else some v
  | none => y

/-- `MinifigureFinder.calculate_profit`, translated branch by branch. -/
def calculate_profit (m : MinifigMatch) : ℚ :=
  if m.matched_details = [] then 0
  else
    match m.price_data with
    | none => 0
    | some pd =>
      let parts_cost := (m.matched_details.map (fun d => d.total_price)).sum
      match pd.data with
      | none => 0
      | some info =>
        match pyOrQ (info.ordered_used.bind (fun c => c.avg_price))
            (info.ordered_new.bind (fun c => c.avg_price)) with
        | none => 0
        | some mp => mp - parts_cost

/-- `MinifigureFinder.calculate_parts_cost`. -/
def calculate_parts_cost (m : MinifigMatch) : ℚ :=
  if m.matched_details = [] then 0
  else (m.matched_details.map (fun d => d.total_price)).sum

/-- Lexicographic order on the three-component sort keys the source builds
as Python tuples. -/
def sortKeyLe (a b : ℚ × ℚ × ℕ) : Prop :=
  a.1 < b.1 ∨ (a.1 = b.1 ∧ (a.2.1 < b.2.1 ∨ (a.2.1 = b.2.1 ∧ a.2.2 ≤ b.2.2)))

instance : DecidableRel sortKeyLe := fun a b =>
  decidable_of_iff
    (a.1 < b.1 ∨ (a.1 = b.1 ∧ (a.2.1 < b.2.1 ∨ (a.2.1 = b.2.1 ∧ a.2.2 ≤ b.2.2)))) Iff.rfl

/-- Sort key of the complete pass: `(match_percentage, profit, year or 0)`. -/
def keyC (m : MinifigMatch) : ℚ × ℚ × ℕ :=
  (m.match_percentage, m.profit, m.year_released.getD 0)

/-- Sort key of the second pass: `(match_percentage, parts cost, year or 0)`. -/
def keyP (m : MinifigMatch) : ℚ × ℚ × ℕ :=
  (m.match_percentage, calculate_parts_cost m, m.year_released.getD 0)

/-- `a` may precede `b` in the descending complete sort. -/
def rC (a b : MinifigMatch) : Prop := sortKeyLe (keyC b) (keyC a)

/-- `a` may precede `b` in the descending second-pass sort. -/
def rP (a b : MinifigMatch) : Prop := sortKeyLe (keyP b) (keyP a)

instance : DecidableRel rC := fun a b =>
  decidable_of_iff (sortKeyLe (keyC b) (keyC a)) Iff.rfl

instance : DecidableRel rP := fun a b =>
  decidable_of_iff (sortKeyLe (keyP b) (keyP a)) Iff.rfl

/-- First pass of `search_minifigs` plus the profit loop: all matches, with
`profit` assigned for buildable candidates. -/
def scoredMatches (inv : Inventory) (ds : List MinifigData) : List MinifigMatch :=
  (ds.filterMap (check_minifig inv)).map
    (fun m => { m with profit := if m.can_build then calculate_profit m else 0 })

/-- `complete_matches` after its stable descending sort (Python `list.sort`
with `reverse=True` is stable; `insertionSort` with this relation is the
same stable descending sort). -/
def completeSorted (inv : Inventory) (ds : List MinifigData) : List MinifigMatch :=
  List.insertionSort rC ((scoredMatches inv ds).filter (fun m => m.can_build))

/-- `partial_matches` (all matches with at least one matched part) after its
stable descending sort. -/
def incompleteSorted (inv : Inventory) (ds : List MinifigData) : List MinifigMatch :=
  List.insertionSort rP ((scoredMatches inv ds).filter (fun m => decide (0 < m.matched_parts)))

/-- Mutable state of the allocation pass: the inventory object, the
`allocated_parts` defaultdict (total zero by default), and `final_results`. -/
structure AllocState where
  inv : Inventory
  ledger : PartKey → ℕ
  results : List MinifigMatch

/-- The `for part_detail in match.matched_details` loop of phase 1: `none`
models the `break` that clears `can_still_build`; otherwise the accumulated
`parts_to_allocate` and `max_copies` are returned.  `remaining` is computed
in `ℤ` because the Python subtraction may go negative. -/
def phase1Loop (inv : Inventory) (L : PartKey → ℕ) :
    List MatchedDetail → List (PartKey × ℕ) → Option ℕ →
    Option (List (PartKey × ℕ) × Option ℕ)
  | [], acc, mc => some (acc, mc)
  | d :: rest, acc, mc =>
    let available := (has_part inv d.part_id d.color_id d.quantity).2.1
    let remaining : ℤ := (available : ℤ) - (L (detKey d) : ℤ)
    if remaining < (d.quantity : ℤ) then none
    else
      let c : ℕ := (remaining / (d.quantity : ℤ)).toNat
      phase1Loop inv L rest (acc ++ [(detKey d, d.quantity)])
        (some (match mc with | none => c | some m0 => min m0 c))

/-- Phase-1 treatment of one complete candidate: on success, commit
`quantity × copies` per matched line and append the match with
`buildable_count` set to `max_copies` (defaulting to 1 as in the source). -/
def phase1Step (s : AllocState) (m : MinifigMatch) : AllocState :=
  match phase1Loop s.inv s.ledger m.matched_details [] none with
  | none => s
  | some (ta, mc) =>
    let copies := mc.getD 1
    { s with
      ledger := ta.foldl (fun L e => fun k => if k = e.1 then L k + e.2 * copies else L k) s.ledger
      results := s.results ++ [{ m with buildable_count := copies }] }

/-- Phase 1 of `search_minifigs`: fold over the sorted complete matches,
starting from the empty ledger and empty result list. -/
def phase1Run (inv : Inventory) (ds : List MinifigData) : AllocState :=
  (completeSorted inv ds).foldl phase1Step ⟨inv, fun _ => 0, []⟩

/-- Body of the phase-2 partition loop over one matched detail line. -/
def phase2SplitStep (inv : Inventory) (L : PartKey → ℕ)
    (acc : List MatchedDetail × List MissingDetail) (d : MatchedDetail) :
    List MatchedDetail × List MissingDetail :=
  let available := (has_part inv d.part_id d.color_id d.quantity).2.1
  let remaining : ℤ := (available : ℤ) - (L (detKey d) : ℤ)
  if (d.quantity : ℤ) ≤ remaining then (acc.1 ++ [d], acc.2)
  else
    (acc.1, acc.2 ++
      [⟨d.part_id, d.part_name, d.color_id, d.color_name, d.quantity,
        remaining.toNat, d.quantity - remaining.toNat, d.price,
        "Parts reserved for higher-priority minifigures"⟩])

/-- The partition of a candidate's matched details into still-available and
now-unavailable parts, as phase 2 computes it against the ledger. -/
def phase2Split (inv : Inventory) (L : PartKey → ℕ) (details : List MatchedDetail) :
    List MatchedDetail × List MissingDetail :=
  details.foldl (phase2SplitStep inv L) ([], [])

/-- Phase-2 treatment of one candidate: skip when no part is still
available or when the available count equals `total_parts`; otherwise build
the re-scored record exactly as the source constructs `partial_match`. -/
def phase2Emit (inv : Inventory) (L : PartKey → ℕ) (m : MinifigMatch) :
    Option MinifigMatch :=
  let s := phase2Split inv L m.matched_details
  if s.1 = [] then none
  else if s.1.length = m.total_parts then none
  else
    some
      { minifig_id := m.minifig_id
        minifig_name := m.minifig_name
        year_released := m.year_released
        category_name := m.category_name
        total_parts := m.total_parts
        matched_parts := s.1.length
        missing_parts := m.total_parts - s.1.length
        match_percentage := ((s.1.length : ℚ) / (m.total_parts : ℚ)) * 100
        can_build := false
        missing_details := s.2 ++ m.missing_details
        buildable_count := 0
        matched_details := s.1
        price_data := m.price_data
        profit := 0 }

/-- Phase-2 loop body: the source never assigns to `allocated_parts` here,
so the ledger component of the state is returned unchanged. -/
def phase2Step (s : AllocState) (m : MinifigMatch) : AllocState :=
  match phase2Emit s.inv s.ledger m with
  | none => s
  | some r => { s with results := s.results ++ [r] }

/-- `MinifigureFinder.search_minifigs` on present cache records: the final
result list together with the inventory object the run leaves behind. -/
def search_minifigs (inv : Inventory) (ds : List MinifigData) :
    List MinifigMatch × Inventory :=
  let s2 := (incompleteSorted inv ds).foldl phase2Step (phase1Run inv ds)
  (s2.results, s2.inv)

/-- A default `MinifigMatch`, used only to destruct `Option` results on
concrete inputs whose presence is proved separately. -/
def defaultMatch : MinifigMatch :=
  ⟨"", "", none, "", 0, 0, 0, 0, false, [], 0, [], none, 0⟩

instance : Inhabited MinifigMatch := ⟨defaultMatch⟩

/-- Total quantity of a part a single accepted build requires: the sum of
`quantity` over its matched-detail lines referring to that key. -/
def needAt (m : MinifigMatch) (k : PartKey) : ℕ :=
  ((m.matched_details.filter (fun d => decide (detKey d = k))).map (fun d => d.quantity)).sum

/-- Total quantity of a part committed across all complete accepted builds,
summed as `quantity_needed × copies_allocated` (spec section 8). -/
def committedAt (res : List MinifigMatch) (k : PartKey) : ℕ :=
  ((res.filter (fun m => m.can_build)).map (fun m => needAt m k * m.buildable_count)).sum

/-- Sum of the quantities of all inventory lines for a key. -/
def sumQtyAt (ls : List InvLine) (k : PartKey) : ℕ :=
  ((ls.filter (fun l => decide (lineKey l = k))).map (fun l => l.qty)).sum

/-- Price of the first inventory line for a key (zero when that line has no
price, zero when there is no such line). -/
def firstPriceAt (ls : List InvLine) (k : PartKey) : ℚ :=
  ((ls.find? (fun l => decide (lineKey l = k))).map (fun l => l.price.getD 0)).getD 0

/-- First non-empty remark among the inventory lines for a key. -/
def firstRemarkAt (ls : List InvLine) (k : PartKey) : String :=
  (((ls.filter (fun l => decide (lineKey l = k))).map (fun l => l.remarks)).find?
    (fun s => decide (s ≠ ""))).getD ""

/-- Market value as the claim for the scorer words it: the used-condition
6-month average when present, the new-condition one exactly when the used
one is absent. -/
def marketValueClaimed (m : MinifigMatch) : Option ℚ :=
  match m.price_data with
  | none => none
  | some pd =>
    match pd.data with
    | none => none
    | some info =>
      match info.ordered_used.bind (fun c => c.avg_price) with
      | some u => some u
      | none => info.ordered_new.bind (fun c => c.avg_price)

/-- Profit as the claim for the scorer words it: claimed market value minus
the summed `unit_price × quantity_needed` of the matched parts, zero when no
market value (or no price data) is available. -/
def profitClaimed (m : MinifigMatch) : ℚ :=
  if m.matched_details = [] then 0
  else
    match marketValueClaimed m with
    | none => 0
    | some v => v - (m.matched_details.map (fun d => d.price * (d.quantity : ℚ))).sum

/-- Market value as the code computes it: the used-condition average when
present and nonzero (Python truthiness), otherwise the new-condition one. -/
def marketValueAmended (m : MinifigMatch) : Option ℚ :=
  match m.price_data with
  | none => none
  | some pd =>
    match pd.data with
    | none => none
    | some info =>
      match info.ordered_used.bind (fun c => c.avg_price) with
      | some u => if u = 0 then info.ordered_new.bind (fun c => c.avg_price) else some u
      | none => info.ordered_new.bind (fun c => c.avg_price)

/-- Profit with the amended market-value rule (fallback also on a used price
equal to zero), still `market − Σ unit_price × quantity_needed`. -/
def profitAmended (m : MinifigMatch) : ℚ :=
  if m.matched_details = [] then 0
  else
    match marketValueAmended m with
    | none => 0
    | some v => v - (m.matched_details.map (fun d => d.price * (d.quantity : ℚ))).sum

/-- Shorthand to build a merged inventory entry for concrete test inputs. -/
def mkInvEntry (pid : String) (cid q : ℕ) (pr : ℚ) : PartKey × InventoryPart :=
  (⟨pid, cid⟩, ⟨pid, cid, q, "P", pr, ""⟩)

/-- Shorthand to build a regular recipe line for concrete test inputs. -/
def mkLine (pid : String) (cid q : ℕ) : MinifigPart :=
  ⟨pid, pid, cid, "c", q, false, false, false, false⟩

/-! Lemmas about the inventory loader. -/

theorem lookupInv_cons (x : PartKey × InventoryPart) (l : Inventory) (k : PartKey) :
    lookupInv (x :: l) k = if x.1 = k then some x.2 else lookupInv l k := by
  by_cases h : x.1 = k
  · rw [lookupInv, List.find?_cons_of_pos _ (by simpa using h)]
    simp [h]
  · rw [lookupInv, List.find?_cons_of_neg _ (by simpa using h), if_neg h]
    rfl

theorem lookupInv_loadUpdate (inv : Inventory) (l : InvLine) (k : PartKey) :
    lookupInv (inv.map (fun e =>
      if e.1 = lineKey l then
        (e.1, { e.2 with
          quantity := e.2.quantity + l.qty,
          remarks := if e.2.remarks = "" ∧ l.remarks ≠ "" then l.remarks else e.2.remarks })
      else e)) k
      = (lookupInv inv k).map (fun v =>
          if k = lineKey l then
            { v with
              quantity := v.quantity + l.qty,
              remarks := if v.remarks = "" ∧ l.remarks ≠ "" then l.remarks else v.remarks }
          else v) := by
  induction inv with
  | nil => rfl
  | cons e rest ih =>
    rw [List.map_cons, lookupInv_cons, lookupInv_cons]
    have hfst : (if e.1 = lineKey l then
        ((e.1, { e.2 with
          quantity := e.2.quantity + l.qty,
          remarks := if e.2.remarks = "" ∧ l.remarks ≠ "" then l.remarks else e.2.remarks }) :
          PartKey × InventoryPart)
      else e).1 = e.1 := by
      by_cases hk : e.1 = lineKey l <;> simp [hk]
    rw [hfst]
    by_cases hk' : e.1 = k
    · rw [if_pos hk', if_pos hk']
      by_cases hk : e.1 = lineKey l
      · have hkk : k = lineKey l := hk'.symm.trans hk
        simp [hk, hkk]
      · have hkk : ¬ k = lineKey l := fun h => hk (hk'.trans h)
        simp [hk, hkk]
    · rw [if_neg hk', if_neg hk']
      exact ih

theorem lookupInv_append_single (inv : Inventory) (k k' : PartKey) (v : InventoryPart) :
    lookupInv (inv ++ [(k, v)]) k'
      = match lookupInv inv k' with
        | some w => some w
        | none => if k' = k then some v else none := by
  induction inv with
  | nil =>
    rw [List.nil_append, lookupInv_cons]
    by_cases h : k' = k
    · simp [lookupInv, h]
    · have : ¬ k = k' := fun e => h e.symm
      simp [lookupInv, h, this]
  | cons e rest ih =>
    rw [List.cons_append, lookupInv_cons, lookupInv_cons]
    by_cases h : e.1 = k'
    · simp [h]
    · simpa [h] using ih

/-- What one processed `P`/`M` line does to a lookup. -/
theorem lookupInv_loadLine (inv : Inventory) (l : InvLine) (k : PartKey)
    (ht : l.item_type = "P" ∨ l.item_type = "M") :
    lookupInv (loadLine inv l) k =
      if lineKey l = k then
        match lookupInv inv k with
        | some v => some { v with
            quantity := v.quantity + l.qty,
            remarks := if v.remarks = "" ∧ l.remarks ≠ "" then l.remarks else v.remarks }
        | none => some ⟨l.item_id, l.color, l.qty, l.item_type, l.price.getD 0, l.remarks⟩
      else lookupInv inv k := by
  unfold loadLine
  rw [if_pos ht]
  cases hfind : lookupInv inv (lineKey l) with
  | some w =>
    rw [lookupInv_loadUpdate]
    by_cases hk : lineKey l = k
    · subst hk
      simp [hfind]
    · have hk' : ¬ k = lineKey l := fun h => hk h.symm
      rw [if_neg hk]
      cases hfind' : lookupInv inv k with
      | some v => simp [hk']
      | none => simp
  | none =>
    rw [lookupInv_append_single]
    by_cases hk : lineKey l = k
    · subst hk
      simp [hfind]
    · have hk' : ¬ k = lineKey l := fun h => hk h.symm
      rw [if_neg hk]
      cases hfind' : lookupInv inv k with
      | some v => simp [hfind']
      | none => simp [hfind', hk']

/-- Merging an option entry with the effect of a list of further lines. -/
def mergeLines (o : Option InventoryPart) (ls : List InvLine) (k : PartKey) :
    Option InventoryPart :=
  match o with
  | some v => some { v with
      quantity := v.quantity + sumQtyAt ls k,
      remarks := if v.remarks = "" then firstRemarkAt ls k else v.remarks }
  | none =>
    match ls.find? (fun l => decide (lineKey l = k)) with
    | none => none
    | some l0 =>
      some ⟨k.part_id, k.color_id, sumQtyAt ls k, l0.item_type, l0.price.getD 0,
        firstRemarkAt ls k⟩

theorem sumQtyAt_cons (l : InvLine) (ls : List InvLine) (k : PartKey) :
    sumQtyAt (l :: ls) k = (if lineKey l = k then l.qty else 0) + sumQtyAt ls k := by
  by_cases h : lineKey l = k <;> simp [sumQtyAt, List.filter_cons, h]

theorem firstRemarkAt_cons (l : InvLine) (ls : List InvLine) (k : PartKey) :
    firstRemarkAt (l :: ls) k =
      if lineKey l = k ∧ l.remarks ≠ "" then l.remarks else firstRemarkAt ls k := by
  by_cases h : lineKey l = k
  · by_cases hr : l.remarks = ""
    · simp [firstRemarkAt, List.filter_cons, h, List.find?, hr]
    · simp [firstRemarkAt, List.filter_cons, h, List.find?, hr]
  · simp [firstRemarkAt, List.filter_cons, h]

theorem load_fold_spec (ls : List InvLine) :
    ∀ (acc : Inventory) (k : PartKey),
    (∀ l ∈ ls, l.item_type = "P" ∨ l.item_type = "M") →
    lookupInv (ls.foldl loadLine acc) k = mergeLines (lookupInv acc k) ls k := by
  induction ls with
  | nil =>
    intro acc k _
    cases h : lookupInv acc k with
    | none => simp [mergeLines, h, List.find?]
    | some v =>
      simp only [mergeLines, h, sumQtyAt, firstRemarkAt, List.filter_nil, List.map_nil,
        List.find?_nil, List.sum_nil, Nat.add_zero, Option.getD_none]
      cases v with
      | mk a b c d e f => by_cases hv : f = "" <;> simp [hv, h]
  | cons l rest ih =>
    intro acc k hty
    have hl := hty l (List.mem_cons_self l rest)
    have hrest : ∀ l' ∈ rest, l'.item_type = "P" ∨ l'.item_type = "M" :=
      fun l' h => hty l' (List.mem_cons_of_mem l h)
    rw [List.foldl_cons, ih (loadLine acc l) k hrest, lookupInv_loadLine acc l k hl]
    by_cases hk : lineKey l = k
    · subst hk
      rw [if_pos rfl]
      cases hfind : lookupInv acc (lineKey l) with
      | some v =>
        simp only [mergeLines, hfind, sumQtyAt_cons, firstRemarkAt_cons, if_pos rfl]
        by_cases hv : v.remarks = ""
        · by_cases hr : l.remarks = ""
          · simp [hv, hr, Nat.add_assoc]
          · simp [hv, hr, Nat.add_assoc]
        · simp [hv, Nat.add_assoc]
      | none =>
        have hfnd : (l :: rest).find? (fun l' => decide (lineKey l' = lineKey l))
            = some l := List.find?_cons_of_pos _ (by simp)
        simp only [mergeLines, hfind, hfnd, sumQtyAt_cons, firstRemarkAt_cons, if_pos rfl]
        by_cases hr : l.remarks = ""
        · simp [hr, lineKey]
        · simp [hr, lineKey]
    · rw [if_neg hk]
      have hfnd : (l :: rest).find? (fun l' => decide (lineKey l' = k))
          = rest.find? (fun l' => decide (lineKey l' = k)) :=
        List.find?_cons_of_neg _ (by simpa using hk)
      cases hfind : lookupInv acc k with
      | some v => simp [mergeLines, sumQtyAt_cons, firstRemarkAt_cons, hk]
      | none =>
        cases hf2 : rest.find? (fun l' => decide (lineKey l' = k)) with
        | none => simp [mergeLines, hfnd, hf2]
        | some l0 => simp [mergeLines, hfnd, hf2, sumQtyAt_cons, firstRemarkAt_cons, hk]

/-- C7: for every sequence of part inventory lines, the loaded store maps a
PartRef that occurs in them to the summed quantity, the first line's price
(zero when absent, never overwritten), and the first non-empty remark. -/
theorem spec_claim_C7 (ls : List InvLine) (k : PartKey)
    (htype : ∀ l ∈ ls, l.item_type = "P" ∨ l.item_type = "M")
    (hk : ∃ l ∈ ls, lineKey l = k) :
    ∃ e, lookupInv (load ls) k = some e ∧
      e.quantity = sumQtyAt ls k ∧
      e.price = firstPriceAt ls k ∧
      e.remarks = firstRemarkAt ls k := by
  have hload : lookupInv (load ls) k = mergeLines (lookupInv ([] : Inventory) k) ls k :=
    load_fold_spec ls [] k htype
  have hnone : lookupInv ([] : Inventory) k = none := rfl
  rw [hnone] at hload
  have hsome : (ls.find? (fun l => decide (lineKey l = k))).isSome := by
    rw [List.find?_isSome]
    obtain ⟨l, hl, hkey⟩ := hk
    exact ⟨l, hl, by simpa using hkey⟩
  obtain ⟨l0, hfind⟩ := Option.isSome_iff_exists.mp hsome
  refine ⟨⟨k.part_id, k.color_id, sumQtyAt ls k, l0.item_type, l0.price.getD 0,
    firstRemarkAt ls k⟩, ?_, rfl, ?_, rfl⟩
  · rw [hload]
    unfold mergeLines
    rw [hfind]
  · unfold firstPriceAt
    rw [hfind]
    rfl

/-- Concrete lines for the C7 witness: a duplicated key whose first line has
no price and an empty remark. -/
def c7lines : List InvLine :=
  [⟨"3001", "P", 5, 2, none, ""⟩, ⟨"3001", "P", 5, 3, some 7, "bin A"⟩,
   ⟨"3002", "P", 1, 4, some 2, "x"⟩]

/-- Key of the duplicated C7 line. -/
def c7key : PartKey := ⟨"3001", 5⟩

/-- Witness for C7 at concrete input: quantities summed to 5, price pinned
to the first (absent, hence zero) one, remark the first non-empty one. -/
theorem spec_claim_C7_witness :
    ∃ e, lookupInv (load c7lines) c7key = some e ∧
      e.quantity = 5 ∧ e.price = 0 ∧ e.remarks = "bin A" := by
  obtain ⟨e, h1, h2, h3, h4⟩ := spec_claim_C7 c7lines c7key (by decide) (by decide)
  exact ⟨e, h1, h2.trans (by decide), h3.trans (by decide), h4.trans (by decide)⟩

/-! Characterization of the recipe matcher. -/

/-- Whether `has_part` reports a recipe line as matched. -/
def isMatched (inv : Inventory) (p : MinifigPart) : Bool :=
  (has_part inv p.part_id p.color_id p.quantity).1

/-- The matched-detail record `check_minifig` appends for a matched line. -/
def mkDetail (inv : Inventory) (p : MinifigPart) : MatchedDetail :=
  let r := has_part inv p.part_id p.color_id p.quantity
  ⟨p.part_id, p.part_name, p.color_id, p.color_name, p.quantity,
    r.2.2.2, r.2.2.2 * p.quantity, r.2.2.1⟩

/-- The missing-detail record `check_minifig` appends for an unmatched line. -/
def mkMissing (inv : Inventory) (p : MinifigPart) : MissingDetail :=
  let r := has_part inv p.part_id p.color_id p.quantity
  ⟨p.part_id, p.part_name, p.color_id, p.color_name, p.quantity,
    r.2.1, p.quantity - r.2.1, r.2.2.2, if 0 < r.2.1 then r.2.2.1 else ""⟩

/-- Build limit a positive-quantity line contributes. -/
def limitOf (inv : Inventory) (p : MinifigPart) : ℕ :=
  (has_part inv p.part_id p.color_id p.quantity).2.1 / p.quantity

theorem checkFold (inv : Inventory) (ps : List MinifigPart) : ∀ acc : CheckAcc,
    ps.foldl (checkStep inv) acc =
      ⟨acc.matched + (ps.filter (isMatched inv)).length,
       acc.missing ++ (ps.filter (fun p => !isMatched inv p)).map (mkMissing inv),
       acc.matchedL ++ (ps.filter (isMatched inv)).map (mkDetail inv),
       acc.build_limits ++ (ps.filter (fun p => decide (0 < p.quantity))).map (limitOf inv)⟩ := by
  induction ps with
  | nil => intro acc; simp
  | cons p rest ih =>
    intro acc
    rw [List.foldl_cons, ih]
    by_cases hm : isMatched inv p
    · by_cases hq : 0 < p.quantity
      · simp [checkStep, isMatched] at hm
        simp [checkStep, hm, hq, List.filter_cons, isMatched, mkDetail, limitOf,
          Nat.add_right_comm, Nat.add_assoc]
      · simp [checkStep, isMatched] at hm
        simp [checkStep, hm, hq, List.filter_cons, isMatched, mkDetail,
          Nat.add_right_comm, Nat.add_assoc]
    · by_cases hq : 0 < p.quantity
      · simp [checkStep, isMatched] at hm
        simp [checkStep, hm, hq, List.filter_cons, isMatched, mkMissing, limitOf]
      · simp [checkStep, isMatched] at hm
        simp [checkStep, hm, hq, List.filter_cons, isMatched, mkMissing]

/-- Closed form of a successful `check_minifig`. -/
theorem check_minifig_some (inv : Inventory) (d : MinifigData) (m : MinifigMatch)
    (h : check_minifig inv d = some m) :
    regular_parts d ≠ [] ∧
    m = { minifig_id := d.minifig_id
          minifig_name := d.name
          year_released := d.year_released
          category_name := d.category_name
          total_parts := (regular_parts d).length
          matched_parts := ((regular_parts d).filter (isMatched inv)).length
          missing_parts := (regular_parts d).length -
            ((regular_parts d).filter (isMatched inv)).length
          match_percentage := (((regular_parts d).filter (isMatched inv)).length : ℚ) /
            ((regular_parts d).length : ℚ) * 100
          can_build := decide (((regular_parts d).filter (isMatched inv)).length =
            (regular_parts d).length)
          missing_details := ((regular_parts d).filter (fun p => !isMatched inv p)).map
            (mkMissing inv)
          buildable_count := (((regular_parts d).filter (fun p => decide (0 < p.quantity))).map
            (limitOf inv)).min?.getD 0
          matched_details := ((regular_parts d).filter (isMatched inv)).map (mkDetail inv)
          price_data := d.price_data
          profit := 0 } := by
  unfold check_minifig at h
  by_cases hreg : regular_parts d = []
  · rw [if_pos hreg] at h
    exact absurd h (by simp)
  · rw [if_neg hreg] at h
    refine ⟨hreg, ?_⟩
    have hpos : 0 < (regular_parts d).length := List.length_pos.mpr hreg
    rw [checkFold] at h
    simp only [Nat.zero_add, List.nil_append, if_pos hpos] at h
    exact (Option.some_injective _ h).symm

/-! The sort relations are total and transitive, so the stable insertion
sort produces descending output. -/

theorem sortKeyLe_total (x y : ℚ × ℚ × ℕ) : sortKeyLe x y ∨ sortKeyLe y x := by
  rcases lt_trichotomy x.1 y.1 with h | h | h
  · exact Or.inl (Or.inl h)
  · rcases lt_trichotomy x.2.1 y.2.1 with h2 | h2 | h2
    · exact Or.inl (Or.inr ⟨h, Or.inl h2⟩)
    · rcases le_total x.2.2 y.2.2 with h3 | h3
      · exact Or.inl (Or.inr ⟨h, Or.inr ⟨h2, h3⟩⟩)
      · exact Or.inr (Or.inr ⟨h.symm, Or.inr ⟨h2.symm, h3⟩⟩)
    · exact Or.inr (Or.inr ⟨h.symm, Or.inl h2⟩)
  · exact Or.inr (Or.inl h)

theorem sortKeyLe_trans {x y z : ℚ × ℚ × ℕ} (h1 : sortKeyLe x y) (h2 : sortKeyLe y z) :
    sortKeyLe x z := by
  rcases h1 with h1 | ⟨e1, h1⟩
  · rcases h2 with h2 | ⟨e2, _⟩
    · exact Or.inl (h1.trans h2)
    · exact Or.inl (e2 ▸ h1)
  · rcases h2 with h2 | ⟨e2, h2⟩
    · exact Or.inl (e1 ▸ h2)
    · refine Or.inr ⟨e1.trans e2, ?_⟩
      rcases h1 with h1 | ⟨f1, h1⟩
      · rcases h2 with h2 | ⟨f2, _⟩
        · exact Or.inl (h1.trans h2)
        · exact Or.inl (f2 ▸ h1)
      · rcases h2 with h2 | ⟨f2, h2⟩
        · exact Or.inl (f1 ▸ h2)
        · exact Or.inr ⟨f1.trans f2, h1.trans h2⟩

instance : IsTotal MinifigMatch rC := ⟨fun a b => sortKeyLe_total (keyC b) (keyC a)⟩

instance : IsTrans MinifigMatch rC := ⟨fun _ _ _ h1 h2 => sortKeyLe_trans h2 h1⟩

instance : IsTotal MinifigMatch rP := ⟨fun a b => sortKeyLe_total (keyP b) (keyP a)⟩

instance : IsTrans MinifigMatch rP := ⟨fun _ _ _ h1 h2 => sortKeyLe_trans h2 h1⟩

/-! State-frame lemmas of the allocation pass. -/

theorem phase1Step_inv_eq (s : AllocState) (m : MinifigMatch) : (phase1Step s m).inv = s.inv := by
  unfold phase1Step
  cases h : phase1Loop s.inv s.ledger m.matched_details [] none with
  | none => rfl
  | some x => cases x; rfl

theorem phase1_fold_inv (ms : List MinifigMatch) : ∀ s : AllocState,
    (ms.foldl phase1Step s).inv = s.inv := by
  induction ms with
  | nil => intro s; rfl
  | cons m rest ih =>
    intro s
    rw [List.foldl_cons, ih (phase1Step s m), phase1Step_inv_eq]

theorem phase1_fold_results_prefix (ms : List MinifigMatch) : ∀ s : AllocState,
    ∃ t, (ms.foldl phase1Step s).results = s.results ++ t := by
  induction ms with
  | nil => intro s; exact ⟨[], by simp⟩
  | cons m rest ih =>
    intro s
    obtain ⟨t, ht⟩ := ih (phase1Step s m)
    rw [List.foldl_cons] at *
    unfold phase1Step at ht ⊢
    cases h : phase1Loop s.inv s.ledger m.matched_details [] none with
    | none =>
      rw [h] at ht
      exact ⟨t, ht⟩
    | some x =>
      cases x with
      | mk ta mc =>
        rw [h] at ht
        refine ⟨{ m with buildable_count := mc.getD 1 } :: t, ?_⟩
        rw [ht]
        simp

/-- Each result appended by phase 1 is an input match with its
`buildable_count` overwritten. -/
theorem phase1_fold_results_mem (ms : List MinifigMatch) : ∀ (s : AllocState)
    (m : MinifigMatch), m ∈ (ms.foldl phase1Step s).results →
    m ∈ s.results ∨ ∃ m0 ∈ ms, ∃ c, m = { m0 with buildable_count := c } := by
  induction ms with
  | nil => intro s m hm; exact Or.inl hm
  | cons m1 rest ih =>
    intro s m hm
    rw [List.foldl_cons] at hm
    rcases ih (phase1Step s m1) m hm with hmem | ⟨m0, hm0, c, hc⟩
    · unfold phase1Step at hmem
      cases h : phase1Loop s.inv s.ledger m1.matched_details [] none with
      | none =>
        rw [h] at hmem
        exact Or.inl hmem
      | some x =>
        cases x with
        | mk ta mc =>
          rw [h] at hmem
          simp only [List.mem_append, List.mem_singleton] at hmem
          rcases hmem with hmem | hmem
          · exact Or.inl hmem
          · exact Or.inr ⟨m1, List.mem_cons_self m1 rest, mc.getD 1, hmem⟩
    · exact Or.inr ⟨m0, List.mem_cons_of_mem m1 hm0, c, hc⟩

/-- Phase 2 only appends results: the inventory and the ledger components
are returned untouched, and the appended results are the in-order
emissions against the incoming ledger. -/
theorem phase2_fold_eq (ms : List MinifigMatch) : ∀ s : AllocState,
    ms.foldl phase2Step s =
      { s with results := s.results ++ ms.filterMap (phase2Emit s.inv s.ledger) } := by
  induction ms with
  | nil => intro s; cases s; simp
  | cons m rest ih =>
    intro s
    rw [List.foldl_cons]
    cases h : phase2Emit s.inv s.ledger m with
    | none =>
      have hstep : phase2Step s m = s := by unfold phase2Step; rw [h]
      rw [hstep, ih s, List.filterMap_cons_none h]
    | some r =>
      have hstep : phase2Step s m = { s with results := s.results ++ [r] } := by
        unfold phase2Step; rw [h]
      rw [hstep, ih { s with results := s.results ++ [r] }]
      simp [List.filterMap_cons, h]

/-- The whole allocation pass in closed form: phase-1 results followed by
the phase-2 emissions against the phase-1 ledger, with the inventory object
handed back unchanged. -/
theorem search_minifigs_eq (inv : Inventory) (ds : List MinifigData) :
    search_minifigs inv ds =
      ((phase1Run inv ds).results ++
        (incompleteSorted inv ds).filterMap (phase2Emit inv (phase1Run inv ds).ledger),
       inv) := by
  have h1 : (phase1Run inv ds).inv = inv := phase1_fold_inv (completeSorted inv ds) _
  unfold search_minifigs
  rw [phase2_fold_eq, h1]

/-- C8: phase 2 never modifies the allocation ledger — the ledger after the
whole phase-2 fold is the one phase 1 left — and the allocation pass hands
the original inventory store back unmutated. -/
theorem spec_claim_C8 (inv : Inventory) (ds : List MinifigData) :
    ((incompleteSorted inv ds).foldl phase2Step (phase1Run inv ds)).ledger
      = (phase1Run inv ds).ledger ∧
    (search_minifigs inv ds).2 = inv := by
  constructor
  · rw [phase2_fold_eq]
  · rw [search_minifigs_eq]

/-- C9: running the allocator again on the same candidate list, starting
from the inventory state the first run left behind, yields the identical
output pair (same builds, same order, same details). -/
theorem spec_claim_C9 (inv : Inventory) (ds : List MinifigData) :
    search_minifigs (search_minifigs inv ds).2 ds = search_minifigs inv ds := by
  have h : (search_minifigs inv ds).2 = inv := by rw [search_minifigs_eq]
  rw [h]

/-- Inventory for the C6 counterexample: the referenced part is present. -/
def c6inv : Inventory := [mkInvEntry "Q" 0 0 0]

/-- Recipe for the C6 counterexample: one regular part with quantity 0. -/
def c6data : MinifigData := ⟨"G", "G", none, "cat", [mkLine "Q" 0 0], none⟩

/-- C6 counterexample: a recipe with a regular part of required quantity 0
is not excluded — the matcher still returns a candidate for it. -/
theorem spec_claim_C6_counterexample :
    ((regular_parts c6data).map (fun p => p.quantity)) = [0] ∧
    (check_minifig c6inv c6data).isSome = true := by decide

/-- C6 (amended): the matcher excludes a recipe exactly when it has zero
regular parts; a required quantity of 0 on a regular part does not exclude
the recipe. -/
theorem spec_claim_C6 (inv : Inventory) (d : MinifigData) :
    check_minifig inv d = none ↔ regular_parts d = [] := by
  unfold check_minifig
  by_cases h : regular_parts d = [] <;> simp [h]

/-- Inventory for the C2 counterexample: one available part. -/
def c2inv : Inventory := [mkInvEntry "A" 0 1 0]

/-- Recipe for the C2 counterexample: one matched and one missing part. -/
def c2data : MinifigData := ⟨"fig2", "fig2", some 2000, "cat", [mkLine "A" 0 1, mkLine "B" 0 1], none⟩

/-- The candidate the matcher produces for the C2 counterexample. -/
def c2m : MinifigMatch := (check_minifig c2inv c2data).getD defaultMatch

/-- C2 counterexample: a candidate all of whose matched parts remain
available under the run's ledger is nonetheless emitted as a partial build
(the source compares the available count against `total_parts`, not against
the matched count). -/
theorem spec_claim_C2_counterexample :
    check_minifig c2inv c2data = some c2m ∧
    c2m.matched_details ≠ [] ∧
    (phase2Split c2inv (phase1Run c2inv [c2data]).ledger c2m.matched_details).2 = [] ∧
    phase2Emit c2inv (phase1Run c2inv [c2data]).ledger c2m ≠ none ∧
    (search_minifigs c2inv [c2data]).1.map
      (fun m => (m.can_build, m.matched_parts, m.total_parts)) = [(false, 1, 2)] := by
  with_unfolding_all decide

theorem has_part_avail (inv : Inventory) (pid : String) (cid q : ℕ) :
    (has_part inv pid cid q).2.1 = availQty inv ⟨pid, cid⟩ := by
  unfold has_part availQty
  cases lookupInv inv ⟨pid, cid⟩ <;> rfl

theorem detKey_mk (d : MatchedDetail) : (⟨d.part_id, d.color_id⟩ : PartKey) = detKey d := rfl

theorem phase2Split_go_fst (inv : Inventory) (L : PartKey → ℕ) :
    ∀ (details : List MatchedDetail) (acc : List MatchedDetail × List MissingDetail),
    (details.foldl (phase2SplitStep inv L) acc).1
      = acc.1 ++ details.filter (fun dd =>
          decide ((dd.quantity : ℤ) ≤ (availQty inv (detKey dd) : ℤ) - (L (detKey dd) : ℤ))) := by
  intro details
  induction details with
  | nil => intro acc; simp
  | cons d rest ih =>
    intro acc
    rw [List.foldl_cons, ih]
    unfold phase2SplitStep
    simp only [has_part_avail, detKey_mk]
    by_cases hcond : (d.quantity : ℤ) ≤ (availQty inv (detKey d) : ℤ) - (L (detKey d) : ℤ)
    · rw [if_pos hcond]
      simp [List.filter_cons, hcond]
    · rw [if_neg hcond]
      simp [List.filter_cons, hcond]

/-- The still-available side of the phase-2 partition is exactly the
matched details whose quantity still fits under ledger-adjusted
availability. -/
theorem phase2Split_fst (inv : Inventory) (L : PartKey → ℕ) (details : List MatchedDetail) :
    (phase2Split inv L details).1
      = details.filter (fun dd =>
          decide ((dd.quantity : ℤ) ≤ (availQty inv (detKey dd) : ℤ) - (L (detKey dd) : ℤ))) := by
  unfold phase2Split
  rw [phase2Split_go_fst]
  rfl

/-- C2 (amended): phase 2 skips a candidate exactly when no matched part
remains available under ledger-adjusted availability or when the number of
still-available matched parts equals `total_parts` (which for an incomplete
candidate never happens, so such a candidate is re-emitted even when all of
its matched parts remain available). -/
theorem spec_claim_C2 (inv : Inventory) (L : PartKey → ℕ) (m : MinifigMatch) :
    phase2Emit inv L m = none ↔
      ((m.matched_details.filter (fun dd =>
          decide ((dd.quantity : ℤ) ≤ (availQty inv (detKey dd) : ℤ) - (L (detKey dd) : ℤ)))).length
        = 0 ∨
       (m.matched_details.filter (fun dd =>
          decide ((dd.quantity : ℤ) ≤ (availQty inv (detKey dd) : ℤ) - (L (detKey dd) : ℤ)))).length
        = m.total_parts) := by
  unfold phase2Emit
  rw [← phase2Split_fst inv L m.matched_details]
  by_cases h1 : (phase2Split inv L m.matched_details).1 = []
  · simp [h1]
  · by_cases h2 : (phase2Split inv L m.matched_details).1.length = m.total_parts
    · simp [h1, h2]
    · simp only [if_neg h1, if_neg h2]
      simp [h1, h2, List.length_eq_zero]

/-- Inventory for the C3 counterexample. -/
def c3inv : Inventory := [mkInvEntry "a" 0 1 0, mkInvEntry "b" 0 1 0, mkInvEntry "d" 0 1 0]

/-- C3 candidate X: parts a, b matched, c missing (66.7 percent). -/
def c3X : MinifigData := ⟨"X", "X", some 2000, "cat",
  [mkLine "a" 0 1, mkLine "b" 0 1, mkLine "c" 0 1], none⟩

/-- C3 candidate Y: part d matched, e missing (50 percent). -/
def c3Y : MinifigData := ⟨"Y", "Y", some 2000, "cat", [mkLine "d" 0 1, mkLine "e" 0 1], none⟩

/-- C3 candidate Z: complete, consumes part a in phase 1. -/
def c3Z : MinifigData := ⟨"Z", "Z", some 2000, "cat", [mkLine "a" 0 1], none⟩

/-- C3 counterexample: the emitted partial builds carry match percentages
100/3 followed by 50 — not descending in the fields of the emitted records,
because the sort used the pre-allocation percentages (66.7 then 50). -/
theorem spec_claim_C3_counterexample :
    (search_minifigs c3inv [c3X, c3Y, c3Z]).1.map (fun m => m.can_build)
      = [true, false, false] ∧
    (search_minifigs c3inv [c3X, c3Y, c3Z]).1.map (fun m => m.match_percentage)
      = [100, 100 / 3, 50] ∧
    ((100 : ℚ) / 3 < 50) := by
  with_unfolding_all decide

/-- C3 (amended): the partial outputs are the in-order emissions over the
candidate pool sorted descending by the PRE-allocation key
`(match_percentage, parts_cost, year-or-0)`; the order is that of the
source candidates' keys, not of the fields recomputed on the emitted
records. -/
theorem spec_claim_C3 (inv : Inventory) (ds : List MinifigData) :
    (search_minifigs inv ds).1 =
      (phase1Run inv ds).results ++
        (incompleteSorted inv ds).filterMap (phase2Emit inv (phase1Run inv ds).ledger) ∧
    List.Sorted rP (incompleteSorted inv ds) := by
  constructor
  · rw [search_minifigs_eq]
  · exact List.sorted_insertionSort rP _

/-- Price data for the C5 counterexample: used-condition average present
with value 0, new-condition average 5. -/
def c5price : PriceData := ⟨some ⟨some ⟨some 5⟩, some ⟨some 0⟩⟩⟩

/-- Inventory for the C5 counterexample: the single part costs 1. -/
def c5inv : Inventory := [mkInvEntry "p1" 0 1 1]

/-- Recipe for the C5 counterexample: one matched part, priced data above. -/
def c5data : MinifigData := ⟨"F", "F", some 2000, "cat", [mkLine "p1" 0 1], some c5price⟩

/-- The buildable candidate of the C5 counterexample. -/
def c5m : MinifigMatch := (check_minifig c5inv c5data).getD defaultMatch

/-- C5 counterexample: with a used-condition average present but equal to 0,
the code falls through to the new-condition price (profit 4), while the
claimed rule (fall back only when used is absent) would give profit −1. -/
theorem spec_claim_C5_counterexample :
    check_minifig c5inv c5data = some c5m ∧
    c5m.can_build = true ∧
    calculate_profit c5m = 4 ∧
    profitClaimed c5m = -1 ∧
    calculate_profit c5m ≠ profitClaimed c5m := by
  with_unfolding_all decide

theorem calculate_profit_amended (m : MinifigMatch)
    (hdd : ∀ dd ∈ m.matched_details, dd.total_price = dd.price * (dd.quantity : ℚ)) :
    calculate_profit m = profitAmended m := by
  have hsum : (m.matched_details.map (fun dd => dd.total_price)).sum
      = (m.matched_details.map (fun dd => dd.price * (dd.quantity : ℚ))).sum := by
    congr 1
    exact List.map_congr_left hdd
  unfold calculate_profit profitAmended marketValueAmended pyOrQ
  by_cases h0 : m.matched_details = []
  · simp [h0]
  · rw [if_neg h0, if_neg h0]
    cases m.price_data with
    | none => rfl
    | some pd =>
      cases pd with
      | mk o =>
        cases o with
        | none => rfl
        | some info =>
          cases hused : info.ordered_used.bind (fun c => c.avg_price) with
          | none =>
            cases hnew : info.ordered_new.bind (fun c => c.avg_price) with
            | none => simp [hused, hnew]
            | some v => simp [hused, hnew, hsum]
          | some u =>
            by_cases hu : u = 0
            · cases hnew : info.ordered_new.bind (fun c => c.avg_price) with
              | none => simp [hused, hnew, hu]
              | some v => simp [hused, hnew, hu, hsum]
            · simp [hused, hu, hsum]

/-- C5 (amended): for a buildable candidate the code's profit is the amended
market value (used-condition average when present AND nonzero, otherwise the
new-condition one) minus the summed `unit_price × quantity_needed` of the
matched parts, zero when no usable price exists. -/
theorem spec_claim_C5 (inv : Inventory) (d : MinifigData) (m : MinifigMatch)
    (h : check_minifig inv d = some m) (hb : m.can_build = true) :
    calculate_profit m = profitAmended m := by
  obtain ⟨hne, rfl⟩ := check_minifig_some inv d m h
  apply calculate_profit_amended
  intro dd hdd
  simp only [List.mem_map] at hdd
  obtain ⟨p, hp, rfl⟩ := hdd
  rfl

/-- Price data for the C5 witness: used average 3, new average 9. -/
def c5wprice : PriceData := ⟨some ⟨some ⟨some 9⟩, some ⟨some 3⟩⟩⟩

/-- Inventory for the C5 witness. -/
def c5winv : Inventory := [mkInvEntry "p2" 0 2 1]

/-- Recipe for the C5 witness. -/
def c5wdata : MinifigData := ⟨"W5", "W5", some 2001, "cat", [mkLine "p2" 0 1], some c5wprice⟩

/-- The buildable candidate of the C5 witness. -/
def c5wm : MinifigMatch := (check_minifig c5winv c5wdata).getD defaultMatch

/-- Witness for C5 at a concrete input: used average 3 minus part cost 1. -/
theorem spec_claim_C5_witness :
    calculate_profit c5wm = profitAmended c5wm ∧ calculate_profit c5wm = 2 :=
  ⟨spec_claim_C5 c5winv c5wdata c5wm (by with_unfolding_all decide) (by with_unfolding_all decide), by with_unfolding_all decide⟩

/-! Internal consistency of emitted records (C10). -/

theorem length_filter_add {α : Type} (l : List α) (p : α → Bool) :
    (l.filter p).length + (l.filter (fun a => !p a)).length = l.length := by
  induction l with
  | nil => rfl
  | cons a t ih =>
    by_cases h : p a
    · simp [List.filter_cons, h]
      omega
    · simp [List.filter_cons, h]
      omega

theorem phase2Split_go_length (inv : Inventory) (L : PartKey → ℕ)
    (details : List MatchedDetail) : ∀ acc : List MatchedDetail × List MissingDetail,
    (details.foldl (phase2SplitStep inv L) acc).1.length +
      (details.foldl (phase2SplitStep inv L) acc).2.length
      = acc.1.length + acc.2.length + details.length := by
  induction details with
  | nil => intro acc; simp
  | cons d rest ih =>
    intro acc
    rw [List.foldl_cons]
    rw [ih (phase2SplitStep inv L acc d)]
    unfold phase2SplitStep
    by_cases h : (d.quantity : ℤ) ≤
        ((has_part inv d.part_id d.color_id d.quantity).2.1 : ℤ) - (L (detKey d) : ℤ)
    · simp only [if_pos h, List.length_append, List.length_cons, List.length_nil]
      omega
    · simp only [if_neg h, List.length_append, List.length_cons, List.length_nil]
      omega

theorem phase2Split_length (inv : Inventory) (L : PartKey → ℕ) (details : List MatchedDetail) :
    (phase2Split inv L details).1.length + (phase2Split inv L details).2.length
      = details.length := by
  unfold phase2Split
  rw [phase2Split_go_length]
  simp

/-- Structural facts every scored candidate satisfies. -/
theorem scored_facts (inv : Inventory) (ds : List MinifigData) (m : MinifigMatch)
    (hm : m ∈ scoredMatches inv ds) :
    m.matched_details.length = m.matched_parts ∧
    m.missing_details.length = m.missing_parts ∧
    m.matched_parts + m.missing_parts = m.total_parts ∧
    0 < m.total_parts ∧
    m.match_percentage = (m.matched_parts : ℚ) / (m.total_parts : ℚ) * 100 := by
  unfold scoredMatches at hm
  rw [List.mem_map] at hm
  obtain ⟨m1, hm1, rfl⟩ := hm
  rw [List.mem_filterMap] at hm1
  obtain ⟨d, _, hd⟩ := hm1
  obtain ⟨hne, rfl⟩ := check_minifig_some inv d m1 hd
  have hfl := length_filter_add (regular_parts d) (isMatched inv)
  have hle : ((regular_parts d).filter (isMatched inv)).length ≤ (regular_parts d).length :=
    List.length_filter_le _ _
  have hpos : 0 < (regular_parts d).length := List.length_pos.mpr hne
  refine ⟨by simp, by simp; omega, by simp; omega, hpos, rfl⟩

/-- Structural facts of a record emitted by phase 2. -/
theorem phase2Emit_facts (inv : Inventory) (L : PartKey → ℕ) (m0 m : MinifigMatch)
    (h : phase2Emit inv L m0 = some m)
    (hlen : m0.matched_details.length = m0.matched_parts)
    (hmiss : m0.missing_details.length = m0.missing_parts)
    (hsum : m0.matched_parts + m0.missing_parts = m0.total_parts) :
    m.matched_parts + m.missing_parts = m.total_parts ∧
    m.match_percentage = (m.matched_parts : ℚ) / (m.total_parts : ℚ) * 100 ∧
    m.matched_details.length = m.matched_parts ∧
    m.missing_details.length = m.missing_parts := by
  have hsplit := phase2Split_length inv L m0.matched_details
  unfold phase2Emit at h
  by_cases h1 : (phase2Split inv L m0.matched_details).1 = []
  · rw [if_pos h1] at h
    exact absurd h (by simp)
  · rw [if_neg h1] at h
    by_cases h2 : (phase2Split inv L m0.matched_details).1.length = m0.total_parts
    · rw [if_pos h2] at h
      exact absurd h (by simp)
    · rw [if_neg h2] at h
      have hm := Option.some_injective _ h
      subst hm
      refine ⟨by simp; omega, rfl, by simp, by simp; omega⟩

/-- C10: every record the allocator emits is internally consistent:
matched plus missing counts equal the total, the percentage is
matched/total×100, and the two detail lists have exactly the matched and
missing numbers of entries. -/
theorem spec_claim_C10 (inv : Inventory) (ds : List MinifigData) (m : MinifigMatch)
    (hm : m ∈ (search_minifigs inv ds).1) :
    m.matched_parts + m.missing_parts = m.total_parts ∧
    m.match_percentage = (m.matched_parts : ℚ) / (m.total_parts : ℚ) * 100 ∧
    m.matched_details.length = m.matched_parts ∧
    m.missing_details.length = m.missing_parts := by
  have hm' : m ∈ (phase1Run inv ds).results ++
      (incompleteSorted inv ds).filterMap (phase2Emit inv (phase1Run inv ds).ledger) := by
    rw [search_minifigs_eq] at hm
    exact hm
  rcases List.mem_append.mp hm' with h1 | h2
  · rcases phase1_fold_results_mem (completeSorted inv ds) ⟨inv, fun _ => 0, []⟩ m h1 with
      habs | ⟨m0, hm0, c, rfl⟩
    · exact absurd habs (by simp)
    · have hm0s : m0 ∈ scoredMatches inv ds := by
        unfold completeSorted at hm0
        rw [List.mem_insertionSort] at hm0
        exact (List.mem_filter.mp hm0).1
      obtain ⟨f1, f2, f3, _, f5⟩ := scored_facts inv ds m0 hm0s
      exact ⟨f3, f5, f1, f2⟩
  · rw [List.mem_filterMap] at h2
    obtain ⟨m0, hm0, hemit⟩ := h2
    have hm0s : m0 ∈ scoredMatches inv ds := by
      unfold incompleteSorted at hm0
      rw [List.mem_insertionSort] at hm0
      exact (List.mem_filter.mp hm0).1
    obtain ⟨f1, f2, f3, _, _⟩ := scored_facts inv ds m0 hm0s
    exact phase2Emit_facts inv _ m0 m hemit f1 f2 f3

/-- Inventory for the C10 witness. -/
def c10inv : Inventory := [mkInvEntry "u" 0 2 1]

/-- Recipe for the C10 witness: one matched, one missing part. -/
def c10data : MinifigData := ⟨"T", "T", some 1990, "cat", [mkLine "u" 0 1, mkLine "v" 0 1], none⟩

/-- The single (partial) record the allocator emits for the C10 witness. -/
def c10m : MinifigMatch := ((search_minifigs c10inv [c10data]).1).headD defaultMatch

/-- Witness for C10 at a concrete input. -/
theorem spec_claim_C10_witness :
    c10m.matched_parts + c10m.missing_parts = c10m.total_parts ∧
    c10m.match_percentage = (c10m.matched_parts : ℚ) / (c10m.total_parts : ℚ) * 100 ∧
    c10m.matched_details.length = c10m.matched_parts ∧
    c10m.missing_details.length = c10m.missing_parts :=
  spec_claim_C10 c10inv [c10data] c10m (by with_unfolding_all decide)

/-! Phase-1 allocation of a fully satisfiable, first-processed candidate (C4). -/

/-- Per-line copy bound `remaining // quantity` used by phase 1. -/
def cOf (inv : Inventory) (L : PartKey → ℕ) (dd : MatchedDetail) : ℕ :=
  (((availQty inv (detKey dd) : ℤ) - (L (detKey dd) : ℤ)) / (dd.quantity : ℤ)).toNat

/-- Step of the running minimum `max_copies` in the phase-1 loop. -/
def minStep (inv : Inventory) (L : PartKey → ℕ) (a : Option ℕ) (dd : MatchedDetail) :
    Option ℕ :=
  some (match a with | none => cOf inv L dd | some m0 => min m0 (cOf inv L dd))

theorem phase1Loop_all (inv : Inventory) (L : PartKey → ℕ) :
    ∀ (details : List MatchedDetail) (acc : List (PartKey × ℕ)) (mc : Option ℕ),
    (∀ dd ∈ details, (dd.quantity : ℤ) ≤ (availQty inv (detKey dd) : ℤ) - (L (detKey dd) : ℤ)) →
    phase1Loop inv L details acc mc =
      some (acc ++ details.map (fun dd => (detKey dd, dd.quantity)),
            details.foldl (minStep inv L) mc) := by
  intro details
  induction details with
  | nil => intro acc mc _; simp [phase1Loop]
  | cons d rest ih =>
    intro acc mc hall
    have hd := hall d (List.mem_cons_self d rest)
    have hrest : ∀ dd ∈ rest, (dd.quantity : ℤ) ≤
        (availQty inv (detKey dd) : ℤ) - (L (detKey dd) : ℤ) :=
      fun dd h => hall dd (List.mem_cons_of_mem d h)
    simp only [phase1Loop, has_part_avail, detKey_mk]
    rw [if_neg (not_lt.mpr hd), ih _ _ hrest]
    simp [minStep, cOf, List.append_assoc]

theorem foldl_minStep_some (inv : Inventory) (L : PartKey → ℕ) :
    ∀ (details : List MatchedDetail) (c0 : ℕ),
    details.foldl (minStep inv L) (some c0)
      = some ((details.map (cOf inv L)).foldl min c0) := by
  intro details
  induction details with
  | nil => intro c0; rfl
  | cons d rest ih =>
    intro c0
    rw [List.foldl_cons, List.map_cons, List.foldl_cons]
    have h1 : minStep inv L (some c0) d = some (min c0 (cOf inv L d)) := rfl
    rw [h1, ih]

theorem foldl_minStep_none (inv : Inventory) (L : PartKey → ℕ) (details : List MatchedDetail) :
    details.foldl (minStep inv L) none = (details.map (cOf inv L)).min? := by
  cases details with
  | nil => rfl
  | cons d rest =>
    rw [List.foldl_cons, List.map_cons]
    have h1 : minStep inv L none d = some (cOf inv L d) := rfl
    rw [h1, foldl_minStep_some]
    rfl

/-- The result list a single phase-1 step produces. -/
theorem phase1Step_results (s : AllocState) (m : MinifigMatch) :
    (phase1Step s m).results =
      match phase1Loop s.inv s.ledger m.matched_details [] none with
      | none => s.results
      | some (_, mc) => s.results ++ [{ m with buildable_count := mc.getD 1 }] := by
  unfold phase1Step
  cases phase1Loop s.inv s.ledger m.matched_details [] none with
  | none => rfl
  | some x => cases x; rfl

/-- C4: a candidate whose every regular part is fully satisfiable from the
original inventory (hence `can_build`) and which phase 1 processes first,
before any ledger commitment, is accepted with `buildable_count` equal to
the minimum over its required parts of `available // needed`, and its
emitted build carries zero missing parts. -/
theorem spec_claim_C4 (inv : Inventory) (d : MinifigData) (m : MinifigMatch)
    (rest : List MinifigMatch) (K : ℕ)
    (hc : check_minifig inv d = some m)
    (hq : ∀ p ∈ regular_parts d, 0 < p.quantity)
    (hs : ∀ p ∈ regular_parts d, p.quantity ≤ availQty inv (partKeyOf p))
    (hK : ((regular_parts d).map (fun p => availQty inv (partKeyOf p) / p.quantity)).min?
      = some K) :
    m.can_build = true ∧
    m.missing_parts = 0 ∧
    m.missing_details = [] ∧
    ((m :: rest).foldl phase1Step ⟨inv, fun _ => 0, []⟩).results.head?
      = some { m with buildable_count := K } := by
  obtain ⟨hne, hm_eq⟩ := check_minifig_some inv d m hc
  have hmat : ∀ p ∈ regular_parts d, isMatched inv p = true := by
    intro p hp
    have hqp := hq p hp
    have hsp := hs p hp
    unfold isMatched has_part
    cases hl : lookupInv inv ⟨p.part_id, p.color_id⟩ with
    | none =>
      exfalso
      have h0 : availQty inv (partKeyOf p) = 0 := by
        unfold availQty partKeyOf
        rw [hl]
      rw [h0] at hsp
      omega
    | some e =>
      have he : availQty inv (partKeyOf p) = e.quantity := by
        unfold availQty partKeyOf
        rw [hl]
      rw [he] at hsp
      simpa using hsp
  have hfilter : (regular_parts d).filter (isMatched inv) = regular_parts d :=
    List.filter_eq_self.mpr hmat
  have hnofilter : (regular_parts d).filter (fun p => !isMatched inv p) = [] :=
    List.filter_eq_nil_iff.mpr (by intro p hp; simp [hmat p hp])
  have hdet : m.matched_details = ((regular_parts d).filter (isMatched inv)).map (mkDetail inv) := by
    rw [hm_eq]
  refine ⟨by rw [hm_eq]; simp [hfilter], by rw [hm_eq]; simp [hfilter],
    by rw [hm_eq]; simp [hnofilter], ?_⟩
  have hall : ∀ dd ∈ ((regular_parts d).filter (isMatched inv)).map (mkDetail inv),
      (dd.quantity : ℤ) ≤ (availQty inv (detKey dd) : ℤ) - (((0 : ℕ) : ℤ)) := by
    rw [hfilter]
    intro dd hdd
    rw [List.mem_map] at hdd
    obtain ⟨p, hp, rfl⟩ := hdd
    have h1 : (mkDetail inv p).quantity = p.quantity := rfl
    have h2 : detKey (mkDetail inv p) = partKeyOf p := rfl
    rw [h1, h2]
    have h3 := hs p hp
    simp only [Nat.cast_zero, sub_zero]
    exact_mod_cast h3
  have hcof : ∀ p ∈ regular_parts d,
      cOf inv (fun _ => 0) (mkDetail inv p) = availQty inv (partKeyOf p) / p.quantity := by
    intro p hp
    have h0 : cOf inv (fun _ => 0) (mkDetail inv p)
        = (((availQty inv (partKeyOf p) : ℤ) - ((0 : ℕ) : ℤ)) / ((p.quantity : ℕ) : ℤ)).toNat :=
      rfl
    rw [h0]
    simp only [Nat.cast_zero, sub_zero]
    norm_cast
  have hmc : (((regular_parts d).filter (isMatched inv)).map (mkDetail inv)).foldl
      (minStep inv (fun _ => 0)) none = some K := by
    rw [foldl_minStep_none, hfilter, List.map_map]
    have hcomp : List.map ((cOf inv (fun _ => 0)) ∘ mkDetail inv) (regular_parts d)
        = List.map (fun p => availQty inv (partKeyOf p) / p.quantity) (regular_parts d) :=
      List.map_congr_left (fun p hp => hcof p hp)
    rw [hcomp]
    exact hK
  have hloop' : phase1Loop inv (fun _ => 0) m.matched_details [] none
      = some ([] ++ m.matched_details.map (fun dd => (detKey dd, dd.quantity)), some K) := by
    rw [hdet]
    rw [phase1Loop_all inv (fun _ => 0) _ [] none hall, hmc]
  have hres : (phase1Step ⟨inv, fun _ => 0, []⟩ m).results
      = [{ m with buildable_count := K }] := by
    rw [phase1Step_results]
    dsimp only
    rw [hloop']
    rfl
  rw [List.foldl_cons]
  obtain ⟨t, ht⟩ := phase1_fold_results_prefix rest (phase1Step ⟨inv, fun _ => 0, []⟩ m)
  rw [ht, hres]
  rfl

/-- Inventory for the C4 witness: five units of the single needed part. -/
def c4inv : Inventory := [mkInvEntry "h1" 0 5 2]

/-- Recipe for the C4 witness: one regular part, two units per copy. -/
def c4data : MinifigData := ⟨"W4", "W4", some 1999, "cat", [mkLine "h1" 0 2], none⟩

/-- The candidate of the C4 witness. -/
def c4m : MinifigMatch := (check_minifig c4inv c4data).getD defaultMatch

/-- Witness for C4 at a concrete input: 5 available over 2 needed gives 2
copies and no missing parts. -/
theorem spec_claim_C4_witness :
    c4m.can_build = true ∧
    c4m.missing_parts = 0 ∧
    c4m.missing_details = [] ∧
    (([c4m] : List MinifigMatch).foldl phase1Step ⟨c4inv, fun _ => 0, []⟩).results.head?
      = some { c4m with buildable_count := 2 } :=
  spec_claim_C4 c4inv c4data c4m [] 2 (by with_unfolding_all decide)
    (by with_unfolding_all decide) (by with_unfolding_all decide)
    (by with_unfolding_all decide)

/-! The ledger invariant of phase 1 (C1). -/

theorem committedAt_append (a b : List MinifigMatch) (k : PartKey) :
    committedAt (a ++ b) k = committedAt a k + committedAt b k := by
  unfold committedAt
  rw [List.filter_append, List.map_append, List.sum_append]

theorem phase2Emit_not_build (inv : Inventory) (L : PartKey → ℕ) (m0 m : MinifigMatch)
    (h : phase2Emit inv L m0 = some m) : m.can_build = false := by
  unfold phase2Emit at h
  by_cases h1 : (phase2Split inv L m0.matched_details).1 = []
  · rw [if_pos h1] at h
    exact absurd h (by simp)
  · rw [if_neg h1] at h
    by_cases h2 : (phase2Split inv L m0.matched_details).1.length = m0.total_parts
    · rw [if_pos h2] at h
      exact absurd h (by simp)
    · rw [if_neg h2] at h
      have := Option.some_injective _ h
      subst this
      rfl

theorem committedAt_phase2 (inv : Inventory) (L : PartKey → ℕ) (ms : List MinifigMatch)
    (k : PartKey) : committedAt (ms.filterMap (phase2Emit inv L)) k = 0 := by
  unfold committedAt
  have hnil : (ms.filterMap (phase2Emit inv L)).filter (fun m => m.can_build) = [] := by
    rw [List.filter_eq_nil_iff]
    intro m hm
    rw [List.mem_filterMap] at hm
    obtain ⟨m0, _, he⟩ := hm
    simp [phase2Emit_not_build inv L m0 m he]
  rw [hnil]
  rfl

theorem ledgerFold_apply (copies : ℕ) :
    ∀ (ta : List (PartKey × ℕ)) (L : PartKey → ℕ) (k : PartKey),
    (ta.foldl (fun Lf e => fun k' => if k' = e.1 then Lf k' + e.2 * copies else Lf k') L) k
      = L k + ((ta.filter (fun e => decide (e.1 = k))).map (fun e => e.2)).sum * copies := by
  intro ta
  induction ta with
  | nil => intro L k; simp
  | cons e r ih =>
    intro L k
    rw [List.foldl_cons, ih]
    by_cases h : e.1 = k
    · have h' : k = e.1 := h.symm
      simp only [List.filter_cons, h, decide_eq_true_eq, if_pos, List.map_cons, List.sum_cons,
        if_pos h']
      ring
    · have h' : ¬ k = e.1 := fun hh => h hh.symm
      simp only [List.filter_cons, decide_eq_false h, Bool.false_eq_true, if_false, if_neg h']

theorem ta_filter_sum (k : PartKey) : ∀ (details : List MatchedDetail),
    (((details.map (fun dd => (detKey dd, dd.quantity))).filter
        (fun e => decide (e.1 = k))).map (fun e => e.2)).sum
      = ((details.filter (fun dd => decide (detKey dd = k))).map (fun dd => dd.quantity)).sum := by
  intro details
  induction details with
  | nil => rfl
  | cons d r ih =>
    by_cases h : detKey d = k <;> simp [List.filter_cons, h, ih]

theorem nodup_filter_key (k : PartKey) : ∀ (details : List MatchedDetail),
    (details.map detKey).Nodup →
    details.filter (fun dd => decide (detKey dd = k)) = []
    ∨ ∃ dd, dd ∈ details ∧ detKey dd = k ∧
        details.filter (fun dd => decide (detKey dd = k)) = [dd] := by
  intro details
  induction details with
  | nil => intro _; exact Or.inl rfl
  | cons d r ih =>
    intro hnd
    rw [List.map_cons, List.nodup_cons] at hnd
    obtain ⟨hd, hr⟩ := hnd
    by_cases h : detKey d = k
    · right
      refine ⟨d, List.mem_cons_self d r, h, ?_⟩
      have hrest : r.filter (fun dd => decide (detKey dd = k)) = [] := by
        rw [List.filter_eq_nil_iff]
        intro dd hdd
        simp only [decide_eq_true_eq]
        intro hk
        exact hd (h ▸ hk ▸ List.mem_map_of_mem detKey hdd)
      simp [List.filter_cons, h, hrest]
    · rcases ih hr with hnil | ⟨dd, hmem, hk, heq⟩
      · left
        simp [List.filter_cons, h, hnil]
      · right
        exact ⟨dd, List.mem_cons_of_mem d hmem, hk, by simp [List.filter_cons, h, heq]⟩

theorem phase1Loop_bound (inv : Inventory) (L : PartKey → ℕ) :
    ∀ (details : List MatchedDetail) (acc : List (PartKey × ℕ)) (mc : Option ℕ)
      (ta : List (PartKey × ℕ)) (mc' : Option ℕ),
    phase1Loop inv L details acc mc = some (ta, mc') →
    ta = acc ++ details.map (fun dd => (detKey dd, dd.quantity)) ∧
    (∀ dd ∈ details, (dd.quantity : ℤ) ≤ (availQty inv (detKey dd) : ℤ) - (L (detKey dd) : ℤ)) ∧
    (∀ dd ∈ details, mc'.getD 1 ≤ cOf inv L dd) ∧
    (∀ c0, mc = some c0 → mc'.getD 1 ≤ c0) := by
  intro details
  induction details with
  | nil =>
    intro acc mc ta mc' h
    simp only [phase1Loop, Option.some_inj, Prod.mk.injEq] at h
    obtain ⟨h1, h2⟩ := h
    subst h1
    subst h2
    refine ⟨by simp, by simp, by simp, ?_⟩
    intro c0 hc0
    subst hc0
    rfl
  | cons d rest ih =>
    intro acc mc ta mc' h
    simp only [phase1Loop, has_part_avail, detKey_mk] at h
    by_cases hcond : ((availQty inv (detKey d) : ℤ) - (L (detKey d) : ℤ)) < (d.quantity : ℤ)
    · rw [if_pos hcond] at h
      exact absurd h (by simp)
    · rw [if_neg hcond] at h
      obtain ⟨ih1, ih2, ih3, ih4⟩ := ih _ _ _ _ h
      have hdle : (d.quantity : ℤ) ≤ (availQty inv (detKey d) : ℤ) - (L (detKey d) : ℤ) :=
        not_lt.mp hcond
      have hcOf : (((availQty inv (detKey d) : ℤ) - (L (detKey d) : ℤ)) /
          (d.quantity : ℤ)).toNat = cOf inv L d := rfl
      refine ⟨by rw [ih1]; simp, ?_, ?_, ?_⟩
      · intro dd hdd
        rcases List.mem_cons.mp hdd with rfl | hdd
        · exact hdle
        · exact ih2 dd hdd
      · intro dd hdd
        rcases List.mem_cons.mp hdd with rfl | hdd
        · cases mc with
          | none =>
            have := ih4 _ rfl
            rw [hcOf] at this
            exact this
          | some m0 =>
            have := ih4 _ rfl
            rw [hcOf] at this
            exact this.trans (min_le_right m0 _)
        · exact ih3 dd hdd
      · intro c0 hc0
        subst hc0
        have := ih4 _ rfl
        exact this.trans (min_le_left c0 _)

theorem phase1_fold_invariant (inv : Inventory) :
    ∀ (ms : List MinifigMatch) (s : AllocState),
    s.inv = inv →
    (∀ m ∈ ms, m.can_build = true ∧ (m.matched_details.map detKey).Nodup) →
    (∀ k, s.ledger k ≤ availQty inv k) →
    (∀ k, committedAt s.results k = s.ledger k) →
    (∀ k, (ms.foldl phase1Step s).ledger k ≤ availQty inv k) ∧
    (∀ k, committedAt ((ms.foldl phase1Step s).results) k = (ms.foldl phase1Step s).ledger k) := by
  intro ms
  induction ms with
  | nil =>
    intro s _ _ hle hcm
    exact ⟨hle, hcm⟩
  | cons m rest ih =>
    intro s hsinv hms hle hcm
    obtain ⟨hcb, hnd⟩ := hms m (List.mem_cons_self m rest)
    have hrest : ∀ m' ∈ rest, m'.can_build = true ∧ (m'.matched_details.map detKey).Nodup :=
      fun m' h => hms m' (List.mem_cons_of_mem m h)
    rw [List.foldl_cons]
    cases hloop : phase1Loop s.inv s.ledger m.matched_details [] none with
    | none =>
      have hstep : phase1Step s m = s := by
        unfold phase1Step
        rw [hloop]
      rw [hstep]
      exact ih s hsinv hrest hle hcm
    | some x =>
      obtain ⟨ta, mc⟩ := x
      have hstep : phase1Step s m =
          { s with
            ledger := ta.foldl
              (fun Lf e => fun k => if k = e.1 then Lf k + e.2 * (mc.getD 1) else Lf k) s.ledger
            results := s.results ++ [{ m with buildable_count := mc.getD 1 }] } := by
        unfold phase1Step
        rw [hloop]
      rw [hsinv] at hloop
      obtain ⟨hta, hav, hbd, _⟩ := phase1Loop_bound inv s.ledger m.matched_details [] none
        ta mc hloop
      rw [List.nil_append] at hta
      subst hta
      have hgain : ∀ k,
          (phase1Step s m).ledger k = s.ledger k +
            ((m.matched_details.filter (fun dd => decide (detKey dd = k))).map
              (fun dd => dd.quantity)).sum * (mc.getD 1) := by
        intro k
        rw [hstep]
        exact (ledgerFold_apply (mc.getD 1) _ s.ledger k).trans (by rw [ta_filter_sum])
      have hle' : ∀ k, (phase1Step s m).ledger k ≤ availQty inv k := by
        intro k
        rw [hgain k]
        rcases nodup_filter_key k m.matched_details hnd with hnil | ⟨dd, hmem, hkey, heq⟩
        · rw [hnil]
          simpa using hle k
        · rw [heq]
          simp only [List.map_cons, List.map_nil, List.sum_cons, List.sum_nil, Nat.add_zero]
          have havd := hav dd hmem
          rw [hkey] at havd
          have hLa : s.ledger k ≤ availQty inv k := by
            have h0 : (0 : ℤ) ≤ (availQty inv k : ℤ) - (s.ledger k : ℤ) :=
              le_trans (by exact_mod_cast Nat.zero_le dd.quantity) havd
            omega
          have hcof : cOf inv s.ledger dd = (availQty inv k - s.ledger k) / dd.quantity := by
            unfold cOf
            rw [hkey]
            have : (availQty inv k : ℤ) - (s.ledger k : ℤ)
                = ((availQty inv k - s.ledger k : ℕ) : ℤ) := by omega
            rw [this]
            norm_cast
          have hcb' : dd.quantity * (mc.getD 1) ≤ availQty inv k - s.ledger k := by
            have h1 : mc.getD 1 ≤ (availQty inv k - s.ledger k) / dd.quantity := by
              have := hbd dd hmem
              rw [hcof] at this
              exact this
            calc dd.quantity * (mc.getD 1)
                ≤ dd.quantity * ((availQty inv k - s.ledger k) / dd.quantity) :=
                  Nat.mul_le_mul_left _ h1
              _ ≤ availQty inv k - s.ledger k := by
                  rw [Nat.mul_comm]
                  exact Nat.div_mul_le_self _ _
          omega
      have hcm' : ∀ k, committedAt ((phase1Step s m).results) k = (phase1Step s m).ledger k := by
        intro k
        rw [hgain k, hstep]
        have hres : ({ s with
            ledger := m.matched_details.map (fun dd => (detKey dd, dd.quantity)) |>.foldl
              (fun Lf e => fun k => if k = e.1 then Lf k + e.2 * (mc.getD 1) else Lf k) s.ledger
            results := s.results ++ [{ m with buildable_count := mc.getD 1 }] } :
            AllocState).results = s.results ++ [{ m with buildable_count := mc.getD 1 }] := rfl
        rw [hres, committedAt_append, hcm k]
        have hone : committedAt [{ m with buildable_count := mc.getD 1 }] k
            = ((m.matched_details.filter (fun dd => decide (detKey dd = k))).map
                (fun dd => dd.quantity)).sum * (mc.getD 1) := by
          unfold committedAt needAt
          simp [List.filter_cons, hcb]
        rw [hone]
      exact ih (phase1Step s m) (by rw [phase1Step_inv_eq, hsinv]) hrest hle' hcm'

/-- The matched-detail keys of a check result form a sublist of the
recipe's regular-part keys. -/
theorem check_detail_keys (inv : Inventory) (d : MinifigData) (m : MinifigMatch)
    (h : check_minifig inv d = some m) :
    List.Sublist (m.matched_details.map detKey) ((regular_parts d).map partKeyOf) := by
  obtain ⟨_, rfl⟩ := check_minifig_some inv d m h
  have hcomp : (((regular_parts d).filter (isMatched inv)).map (mkDetail inv)).map detKey
      = ((regular_parts d).filter (isMatched inv)).map partKeyOf := by
    rw [List.map_map]
    rfl
  rw [hcomp]
  exact (List.filter_sublist (regular_parts d)).map partKeyOf

/-- Every candidate of the sorted complete pool is buildable and, when its
recipe has pairwise-distinct regular PartRefs, has pairwise-distinct
matched-detail keys. -/
theorem completeSorted_facts (inv : Inventory) (ds : List MinifigData)
    (h : ∀ d ∈ ds, ((regular_parts d).map partKeyOf).Nodup) :
    ∀ m ∈ completeSorted inv ds,
      m.can_build = true ∧ (m.matched_details.map detKey).Nodup := by
  intro m hm
  unfold completeSorted at hm
  rw [List.mem_insertionSort] at hm
  rw [List.mem_filter] at hm
  obtain ⟨hscored, hcb⟩ := hm
  refine ⟨hcb, ?_⟩
  unfold scoredMatches at hscored
  rw [List.mem_map] at hscored
  obtain ⟨m1, hm1, rfl⟩ := hscored
  rw [List.mem_filterMap] at hm1
  obtain ⟨d, hd, hcheck⟩ := hm1
  have hsub := check_detail_keys inv d m1 hcheck
  exact (h d hd).sublist hsub

/-- Inventory for the C1 counterexample: one unit of the part. -/
def c1inv : Inventory := [mkInvEntry "X" 0 1 0]

/-- Recipe for the C1 counterexample: the same PartRef on two regular
lines (as a BrickLink inventory does for an extra copy of a part). -/
def c1data : MinifigData :=
  ⟨"fig1", "fig1", some 2000, "cat", [mkLine "X" 0 1, mkLine "X" 0 1], none⟩

/-- C1 counterexample: a recipe listing the same PartRef on two regular
lines over-commits — the total committed for the part exceeds the
available quantity in the original snapshot. -/
theorem spec_claim_C1_counterexample :
    availQty c1inv ⟨"X", 0⟩ < committedAt (search_minifigs c1inv [c1data]).1 ⟨"X", 0⟩ := by
  with_unfolding_all decide

/-- C1 (amended): provided every recipe's regular parts reference
pairwise-distinct PartRefs, the total quantity committed across all
complete accepted builds, summed as `quantity_needed × copies_allocated`
over every complete build requiring the part, never exceeds the part's
available quantity in the original inventory snapshot. -/
theorem spec_claim_C1 (inv : Inventory) (ds : List MinifigData) (k : PartKey)
    (h : ∀ d ∈ ds, ((regular_parts d).map partKeyOf).Nodup) :
    committedAt (search_minifigs inv ds).1 k ≤ availQty inv k := by
  have hinvr := phase1_fold_invariant inv (completeSorted inv ds) ⟨inv, fun _ => 0, []⟩
    rfl (completeSorted_facts inv ds h) (fun _ => Nat.zero_le _) (fun _ => rfl)
  have hsearch : (search_minifigs inv ds).1 =
      (phase1Run inv ds).results ++
        (incompleteSorted inv ds).filterMap (phase2Emit inv (phase1Run inv ds).ledger) := by
    rw [search_minifigs_eq]
  rw [hsearch, committedAt_append, committedAt_phase2, Nat.add_zero]
  have h2 := hinvr.2 k
  have h1 := hinvr.1 k
  unfold phase1Run
  rw [h2]
  exact h1

/-- Inventory for the C1 witness. -/
def c1winv : Inventory := [mkInvEntry "Y" 0 3 0]

/-- Recipe for the C1 witness: a single regular line needing two units. -/
def c1wdata : MinifigData := ⟨"W1", "W1", some 2005, "cat", [mkLine "Y" 0 2], none⟩

/-- Witness for C1 at a concrete input with distinct PartRefs per recipe. -/
theorem spec_claim_C1_witness :
    committedAt (search_minifigs c1winv [c1wdata]).1 ⟨"Y", 0⟩ ≤ availQty c1winv ⟨"Y", 0⟩ :=
  spec_claim_C1 c1winv [c1wdata] ⟨"Y", 0⟩ (by with_unfolding_all decide)

end MinifigBuilder
